import Mathlib

/-!
Verification of the PureArchitecture controller execution pipeline.

This file gives a shallow embedding, in Lean 4, of the request-handling
pipeline of the repository:

* `src/presentation/pure_controller.ts` — the schema-validated,
  protocol-agnostic `PureControllerWithSchema.handle` pipeline;
* `src/presentation/controllers/pure_controller.ts` — the HTTP
  `PureController.handle` variant with status-code selection;
* `src/presentation/mapping/result_to_api_response.ts` —
  `failureToApiResponse`;
* the application-layer interactors with optional repository
  capabilities (`RestoreInteractor`, `SoftDeleteInteractor`,
  `UpdateInteractor`).

The `Result` / trace / translator collaborators come from the external
`pure-trace` package; they are modelled from the contracts stated in the
specification (a tagged Success/Failure outcome with an ordered error
list and an ordered trace list, errors being a subset of the traces;
`chainSuccess` composition that short-circuits on failure and
accumulates traces; a translator that attaches a localized message in
place).  In-place mutation of traces is represented by producing an
updated trace value and threading the updated lists forward.

To state temporal properties (which hooks run, how often, in which
order) each embedded `handle` also returns the ordered list of
observable hook invocations (`Event`) performed during the run.
-/

namespace PureArch

/-- Locale / culture tag used for message translation (`Culture` in
`src/common/culture.ts` is a plain string such as `"en"` or `"fr-FR"`). -/
abbrev Locale := String

/-- The `type` discriminator of a diagnostic message: `processError`
(caller-correctable), `technicalIssue` (system fault) or an
informational trace.  Modelled from the data model of the spec. -/
inductive TraceType where
  | processError
  | technicalIssue
  | info
deriving DecidableEq, Repr

/-- A structured diagnostic unit (`PureMessage` / `PureError` of the
`pure-trace` collaborator): a stable `code`, a `type` discriminator,
optional structured `data` (abstracted here as an opaque token) and an
optional `localizedMessage` set at most once by the translator.
Modelled from the spec: "Message / Trace / Error: a structured
diagnostic unit with a stable code, a type discriminator, optional
structured data, and an optional localizedMessage". -/
structure PTrace where
  code : String
  type : TraceType
  data : Option String
  localizedMessage : Option String
deriving DecidableEq, Repr

/-- `Result<T>` of the `pure-trace` collaborator.  Modelled from the
spec: "either Success(value, traces) or Failure(errors, traces)";
"Errors are a subset of traces that indicate failure".  A failure
stores its errors and its non-error traces separately; `getTraces`
returns the errors followed by the other traces, so that the errors
are among the traces and share identity with them (mutating a trace in
the list mutates the corresponding error). -/
inductive Result (α : Type) where
  | success (value : α) (traces : List PTrace)
  | failure (errors : List PTrace) (others : List PTrace)
deriving DecidableEq, Repr

namespace Result

/-- `Result.isFailure()` of the collaborator contract. -/
def isFailure : Result α → Bool
  | .success _ _ => false
  | .failure _ _ => true

/-- `Result.getErrors()` — the ordered error list (empty on success). -/
def getErrors : Result α → List PTrace
  | .success _ _ => []
  | .failure errors _ => errors

/-- `Result.getTraces()` — all traces; on a failure the errors are part
of the trace list. -/
def getTraces : Result α → List PTrace
  | .success _ traces => traces
  | .failure errors others => errors ++ others

/-- Trace accumulation: prepend the traces collected upstream onto a
downstream result (spec: "Traces accumulate across the whole
pipeline"). -/
def prependTraces (ts : List PTrace) : Result α → Result α
  | .success v traces => .success v (ts ++ traces)
  | .failure errors others => .failure errors (ts ++ others)

/-- `chainSuccess` — sequential composition that only proceeds on
success and short-circuits on failure, accumulating traces. -/
def chainSuccess : Result α → (α → Result β) → Result β
  | .success v traces, f => (f v).prependTraces traces
  | .failure errors others, _ => .failure errors others

/-- `mapSuccess` — used by the pipeline with a callback that returns a
new `Success`; same composition semantics as `chainSuccess`. -/
def mapSuccess (r : Result α) (f : α → Result β) : Result β :=
  r.chainSuccess f

end Result

/-- The translator collaborator: `Translator.translate(message, locale)`
mutates the message in place, "attaching a locale-specific
human-readable string, keyed by a stable message code".  Modelled as
the function computing the attached string; the in-place write is
represented by `localize`. -/
def Translator : Type := PTrace → Locale → String

/-- Effect of one `Translator.translate` call guarded by the already-localized
check of the pipeline: set `localizedMessage` when it is absent,
leave the trace untouched otherwise. -/
def localize (translator : Translator) (loc : Locale) (t : PTrace) : PTrace :=
  if t.localizedMessage.isNone then
    { t with localizedMessage := some (translator t loc) }
  else t

/-- Observable invocation performed by a controller run.  Each
constructor records one call of the corresponding hook or
collaborator. -/
inductive Event where
  | initContextCall
  | extractCall
  | mapCall
  | executeCall
  | translateCall (t : PTrace)
  | handleErrorCall (e : PTrace)
  | handleFailureCall
  | handleSuccessCall
  | handleContextCall
  | checkErrorCall (e : PTrace)
deriving DecidableEq, Repr

/-- The trace argument of a `translateCall` event. -/
def Event.translatedOf : Event → Option PTrace
  | .translateCall t => some t
  | _ => none

/-- The error argument of a `handleErrorCall` event. -/
def Event.handledErrorOf : Event → Option PTrace
  | .handleErrorCall e => some e
  | _ => none

/-- The error argument of a `checkErrorCall` event. -/
def Event.checkedErrorOf : Event → Option PTrace
  | .checkErrorCall e => some e
  | _ => none

/-- One iteration of the translation loop
(`if (trace.localizedMessage == undefined) translate(trace, locale)`),
returning the possibly-updated trace and the translate events it
performed. -/
def translateStep (translator : Translator) (loc : Locale) (t : PTrace) :
    PTrace × List Event :=
  if t.localizedMessage.isNone then
    ({ t with localizedMessage := some (translator t loc) },
      [Event.translateCall t])
  else (t, [])

/-- The translation loop over a list of traces (`for (const trace of
result.getTraces()) ...`), in iteration order. -/
def translateList (translator : Translator) (loc : Locale) :
    List PTrace → List PTrace × List Event
  | [] => ([], [])
  | t :: rest =>
    let s := translateStep translator loc t
    let r := translateList translator loc rest
    (s.1 :: r.1, s.2 ++ r.2)

/-- The translation loop applied to all traces held by a result; on a
failure the errors are translated first (they come first in
`getTraces`), and the updated errors stay shared with the updated
trace list, mirroring the in-place mutation. -/
def translateResult (translator : Translator) (loc : Locale) :
    Result α → Result α × List Event
  | .success v traces =>
    (.success v (translateList translator loc traces).1,
      (translateList translator loc traces).2)
  | .failure errors others =>
    (.failure (translateList translator loc errors).1
        (translateList translator loc others).1,
      (translateList translator loc errors).2 ++
        (translateList translator loc others).2)

theorem translateStep_fst (translator : Translator) (loc : Locale) (t : PTrace) :
    (translateStep translator loc t).1 = localize translator loc t := by
  unfold translateStep localize
  by_cases h : t.localizedMessage.isNone <;> simp [h]

theorem translateStep_of_isSome (translator : Translator) (loc : Locale)
    {t : PTrace} (h : t.localizedMessage.isSome = true) :
    translateStep translator loc t = (t, []) := by
  unfold translateStep
  simp [Option.isNone_iff_eq_none]
  intro hn
  rw [hn] at h
  simp at h

theorem localize_isSome (translator : Translator) (loc : Locale) (t : PTrace) :
    (localize translator loc t).localizedMessage.isSome = true := by
  unfold localize
  by_cases h : t.localizedMessage.isNone
  · simp [h]
  · simp only [h, if_neg, Bool.false_eq_true, if_false]
    simpa [Option.isNone_iff_eq_none, Option.isSome_iff_ne_none] using h

theorem localize_of_isSome (translator : Translator) (loc : Locale)
    {t : PTrace} (h : t.localizedMessage.isSome = true) :
    localize translator loc t = t := by
  unfold localize
  simp [Option.isNone_iff_eq_none]
  intro hn
  rw [hn] at h
  simp at h

theorem translateList_fst (translator : Translator) (loc : Locale)
    (ts : List PTrace) :
    (translateList translator loc ts).1 = ts.map (localize translator loc) := by
  induction ts with
  | nil => rfl
  | cons t rest ih =>
    simp [translateList, ih, translateStep_fst]

theorem translateList_snd (translator : Translator) (loc : Locale)
    (ts : List PTrace) :
    (translateList translator loc ts).2 =
      (ts.filter (fun t => t.localizedMessage.isNone)).map Event.translateCall := by
  induction ts with
  | nil => rfl
  | cons t rest ih =>
    by_cases h : t.localizedMessage.isNone
    · simp [translateList, translateStep, h, ih, List.filter_cons]
    · simp [translateList, translateStep, h, ih, List.filter_cons]

/-- The requester variant used by `PureControllerWithSchema` (the
canonical, payload-wrapped shape): a unique id and a
`preferredLocale`. -/
structure Requester where
  id : String
  preferredLocale : Locale
deriving DecidableEq, Repr

/-- `PureRequest` (`src/presentation/pure_request.ts`): a
protocol-agnostic request exposing its requester; the protocol-native
payload is an opaque value consumed only by `extractRequestData`. -/
structure PureRequest (Raw : Type) where
  requester : Requester
  raw : Raw

/-- The use-case input built by the mapping step of the pipeline:
`{ requester: request.getRequester(), payload: mapper.to(validated) }`
(`PureParameters` of `src/common/parameters.ts`). -/
structure UseCaseInput (Payload : Type) where
  requester : Requester
  payload : Payload

/-- The abstract methods of `PureControllerWithSchema`
(`src/presentation/pure_controller.ts`), i.e. the adapter-implemented
hooks.  The mutable `ControllerContext` is threaded explicitly: each
void hook returns the updated context. -/
structure Hooks (Raw ReqData UCResult Ctx CR : Type) where
  initContext : PureRequest Raw → Ctx
  extractRequestData : PureRequest Raw → Result ReqData
  handleError : PTrace → Ctx → Ctx
  handleFailure : Result UCResult → Ctx → Ctx
  handleSuccess : Result UCResult → Ctx → Ctx
  handleContext : Ctx → CR

/-- Outcome of one run of `handle`: the ordered list of observable
invocations, the returned `ControllerResult`, the final context passed
to `handleContext`, and the aggregate result as it stands after all
in-place translation. -/
structure ControllerRun (UCResult Ctx CR : Type) where
  log : List Event
  result : CR
  ctx : Ctx
  finalResult : Result UCResult
deriving Repr

/-- The per-error dispatch loop of `handle`:
`for (const error of result.getErrors()) { if (no localized message)
translate(error); handleError(error, context); }` — returns the
updated (possibly re-translated) errors, the events performed and the
final context. -/
def errorLoop (translator : Translator) (loc : Locale)
    (handleError : PTrace → Ctx → Ctx) :
    List PTrace → Ctx → List PTrace × List Event × Ctx
  | [], ctx => ([], [], ctx)
  | e :: rest, ctx =>
    let s := translateStep translator loc e
    let ctx1 := handleError s.1 ctx
    let r := errorLoop translator loc handleError rest ctx1
    (s.1 :: r.1, s.2 ++ Event.handleErrorCall s.1 :: r.2.1, r.2.2)

/-- Steps 6–8 of `handle`, shared by every path: translate the traces
of the aggregate result, dispatch the outcome (per-error handling and
`handleFailure` on a failure, `handleSuccess` on a success) and
finalize through `handleContext`. -/
def finishPipeline (hooks : Hooks Raw ReqData UCResult Ctx CR)
    (translator : Translator) (loc : Locale) (baseLog : List Event)
    (ctx : Ctx) (result : Result UCResult) : ControllerRun UCResult Ctx CR :=
  match translateResult translator loc result with
  | (Result.failure errors others, trEvents) =>
    let r := errorLoop translator loc hooks.handleError errors ctx
    let finalRes := Result.failure r.1 others
    let ctx2 := hooks.handleFailure finalRes r.2.2
    { log := baseLog ++ trEvents ++ r.2.1 ++
        [Event.handleFailureCall] ++ [Event.handleContextCall]
      result := hooks.handleContext ctx2
      ctx := ctx2
      finalResult := finalRes }
  | (Result.success v traces, trEvents) =>
    let ctx2 := hooks.handleSuccess (Result.success v traces) ctx
    { log := baseLog ++ trEvents ++
        [Event.handleSuccessCall] ++ [Event.handleContextCall]
      result := hooks.handleContext ctx2
      ctx := ctx2
      finalResult := Result.success v traces }

/-- `PureControllerWithSchema.handle`
(`src/presentation/pure_controller.ts`, lines 209–275).  The injected
collaborators are the schema validation (`pureZodParse` with the fixed
schema, `parse`), the `to` method of the mapper (`mapperTo`), the
`execute` method of the interactor and the translator.  The asynchronous lift (`ResultAsync`)
has exactly one suspension point — the use-case call — and is modelled
by direct application; `chainSuccess`/`mapSuccess` are unfolded into
the match so that the run can record which collaborators were actually
invoked (`mapCall`, `executeCall`): the callbacks run exactly when the
upstream result is a success (`aggregateResult_eq` below checks this
against the combinator composition written in the source). -/
def handle (hooks : Hooks Raw ReqData UCResult Ctx CR)
    (parse : ReqData → Result Valid) (mapperTo : Valid → Payload)
    (execute : UseCaseInput Payload → Result UCResult)
    (translator : Translator) (request : PureRequest Raw) :
    ControllerRun UCResult Ctx CR :=
  let context := hooks.initContext request
  let preferredLocale := request.requester.preferredLocale
  match (hooks.extractRequestData request).chainSuccess parse with
  | .failure errors others =>
    finishPipeline hooks translator preferredLocale
      [Event.initContextCall, Event.extractCall] context
      (.failure errors others)
  | .success validated ts =>
    let input : UseCaseInput Payload := ⟨request.requester, mapperTo validated⟩
    finishPipeline hooks translator preferredLocale
      [Event.initContextCall, Event.extractCall, Event.mapCall,
        Event.executeCall] context
      ((execute input).prependTraces ts)

/-- The aggregate result of steps 2–5 written exactly as the source
composes it:
`liftResult(extractRequestData(request).chainSuccess(parse).mapSuccess(
 validated => new Success({requester, payload: mapper.to(validated)}))
).chainSuccess(input => interactor.execute(input))`. -/
def aggregateResult (hooks : Hooks Raw ReqData UCResult Ctx CR)
    (parse : ReqData → Result Valid) (mapperTo : Valid → Payload)
    (execute : UseCaseInput Payload → Result UCResult)
    (request : PureRequest Raw) : Result UCResult :=
  (((hooks.extractRequestData request).chainSuccess parse).mapSuccess
      (fun validated =>
        Result.success ⟨request.requester, mapperTo validated⟩ [])).chainSuccess
    execute

/-- The unfolded control flow of `handle` agrees with the combinator
composition of the source: mapping and execution run exactly when
extraction and validation succeed. -/
theorem aggregateResult_eq (hooks : Hooks Raw ReqData UCResult Ctx CR)
    (parse : ReqData → Result Valid) (mapperTo : Valid → Payload)
    (execute : UseCaseInput Payload → Result UCResult)
    (request : PureRequest Raw) :
    aggregateResult hooks parse mapperTo execute request =
      match (hooks.extractRequestData request).chainSuccess parse with
      | .failure errors others => .failure errors others
      | .success validated ts =>
        (execute ⟨request.requester, mapperTo validated⟩).prependTraces ts := by
  unfold aggregateResult
  cases h : (hooks.extractRequestData request).chainSuccess parse with
  | failure errors others => simp [Result.mapSuccess, Result.chainSuccess]
  | success validated ts =>
    simp [Result.mapSuccess, Result.chainSuccess, Result.prependTraces]

theorem errorLoop_of_localized (translator : Translator) (loc : Locale)
    (handleError : PTrace → Ctx → Ctx) (errs : List PTrace) (ctx : Ctx)
    (h : ∀ e ∈ errs, e.localizedMessage.isSome = true) :
    errorLoop translator loc handleError errs ctx =
      (errs, errs.map Event.handleErrorCall,
        errs.foldl (fun c e => handleError e c) ctx) := by
  induction errs generalizing ctx with
  | nil => rfl
  | cons e rest ih =>
    have he : e.localizedMessage.isSome = true := h e (List.mem_cons_self e rest)
    have hrest : ∀ x ∈ rest, x.localizedMessage.isSome = true :=
      fun x hx => h x (List.mem_cons_of_mem e hx)
    simp [errorLoop, translateStep_of_isSome translator loc he, ih _ hrest]

theorem finishPipeline_failure (hooks : Hooks Raw ReqData UCResult Ctx CR)
    (translator : Translator) (loc : Locale) (baseLog : List Event)
    (ctx : Ctx) (errors others : List PTrace) :
    finishPipeline hooks translator loc baseLog ctx
        (Result.failure errors others) =
      { log := baseLog ++
          (((errors ++ others).filter
              (fun t => t.localizedMessage.isNone)).map Event.translateCall) ++
          ((errors.map (localize translator loc)).map Event.handleErrorCall) ++
          [Event.handleFailureCall] ++ [Event.handleContextCall]
        result := hooks.handleContext (hooks.handleFailure
          (Result.failure (errors.map (localize translator loc))
            (others.map (localize translator loc)))
          ((errors.map (localize translator loc)).foldl
            (fun c e => hooks.handleError e c) ctx))
        ctx := hooks.handleFailure
          (Result.failure (errors.map (localize translator loc))
            (others.map (localize translator loc)))
          ((errors.map (localize translator loc)).foldl
            (fun c e => hooks.handleError e c) ctx)
        finalResult := Result.failure (errors.map (localize translator loc))
          (others.map (localize translator loc)) } := by
  have hloc : ∀ e ∈ errors.map (localize translator loc),
      e.localizedMessage.isSome = true := by
    intro e he
    rcases List.mem_map.mp he with ⟨x, _, hx⟩
    rw [← hx]
    exact localize_isSome translator loc x
  unfold finishPipeline
  simp only [translateResult, translateList_fst, translateList_snd,
    errorLoop_of_localized translator loc hooks.handleError _ ctx hloc,
    List.filter_append, List.map_append]

theorem finishPipeline_success (hooks : Hooks Raw ReqData UCResult Ctx CR)
    (translator : Translator) (loc : Locale) (baseLog : List Event)
    (ctx : Ctx) (v : UCResult) (traces : List PTrace) :
    finishPipeline hooks translator loc baseLog ctx
        (Result.success v traces) =
      { log := baseLog ++
          ((traces.filter
              (fun t => t.localizedMessage.isNone)).map Event.translateCall) ++
          [Event.handleSuccessCall] ++ [Event.handleContextCall]
        result := hooks.handleContext (hooks.handleSuccess
          (Result.success v (traces.map (localize translator loc))) ctx)
        ctx := hooks.handleSuccess
          (Result.success v (traces.map (localize translator loc))) ctx
        finalResult := Result.success v (traces.map (localize translator loc)) } := by
  unfold finishPipeline
  simp only [translateResult, translateList_fst, translateList_snd]

theorem count_map_of_ne {α β : Type} [DecidableEq β] {f : α → β} {x : β}
    (h : ∀ a, ¬ f a = x) (l : List α) : (l.map f).count x = 0 := by
  rw [List.count_eq_zero]
  simp only [List.mem_map, not_exists, not_and]
  exact fun a _ => h a

@[simp] theorem count_translate_map (ts : List PTrace) {x : Event}
    (h : ∀ t, ¬ Event.translateCall t = x) :
    (ts.map Event.translateCall).count x = 0 :=
  count_map_of_ne h ts

@[simp] theorem count_handleError_map (ts : List PTrace) {x : Event}
    (h : ∀ t, ¬ Event.handleErrorCall t = x) :
    (ts.map Event.handleErrorCall).count x = 0 :=
  count_map_of_ne h ts

@[simp] theorem count_translate_comp {α : Type} (g : α → PTrace) (l : List α)
    {x : Event} (h : ∀ t, ¬ Event.translateCall t = x) :
    (l.map (Event.translateCall ∘ g)).count x = 0 :=
  count_map_of_ne (fun a => h (g a)) l

@[simp] theorem count_handleError_comp {α : Type} (g : α → PTrace) (l : List α)
    {x : Event} (h : ∀ t, ¬ Event.handleErrorCall t = x) :
    (l.map (Event.handleErrorCall ∘ g)).count x = 0 :=
  count_map_of_ne (fun a => h (g a)) l

@[simp] theorem filterMap_translatedOf_comp_translate {α : Type} (g : α → PTrace)
    (l : List α) :
    l.filterMap (Event.translatedOf ∘ (Event.translateCall ∘ g)) = l.map g := by
  induction l with
  | nil => rfl
  | cons a rest ih => simp [List.filterMap_cons, Event.translatedOf, ih]

@[simp] theorem filterMap_translatedOf_comp_translate' (l : List PTrace) :
    l.filterMap (Event.translatedOf ∘ Event.translateCall) = l := by
  induction l with
  | nil => rfl
  | cons a rest ih => simp [List.filterMap_cons, Event.translatedOf, ih]

@[simp] theorem filterMap_translatedOf_comp_handleError {α : Type}
    (g : α → PTrace) (l : List α) :
    l.filterMap (Event.translatedOf ∘ (Event.handleErrorCall ∘ g)) = [] := by
  induction l with
  | nil => rfl
  | cons a rest ih => simp [List.filterMap_cons, Event.translatedOf, ih]

@[simp] theorem filterMap_handledErrorOf_comp_translate {α : Type}
    (g : α → PTrace) (l : List α) :
    l.filterMap (Event.handledErrorOf ∘ (Event.translateCall ∘ g)) = [] := by
  induction l with
  | nil => rfl
  | cons a rest ih => simp [List.filterMap_cons, Event.handledErrorOf, ih]

@[simp] theorem filterMap_handledErrorOf_comp_translate' (l : List PTrace) :
    l.filterMap (Event.handledErrorOf ∘ Event.translateCall) = [] := by
  induction l with
  | nil => rfl
  | cons a rest ih => simp [List.filterMap_cons, Event.handledErrorOf, ih]

@[simp] theorem filterMap_handledErrorOf_comp_handleError {α : Type}
    (g : α → PTrace) (l : List α) :
    l.filterMap (Event.handledErrorOf ∘ (Event.handleErrorCall ∘ g)) =
      l.map g := by
  induction l with
  | nil => rfl
  | cons a rest ih => simp [List.filterMap_cons, Event.handledErrorOf, ih]

@[simp] theorem filterMap_translatedOf_translate (ts : List PTrace) :
    (ts.map Event.translateCall).filterMap Event.translatedOf = ts := by
  induction ts with
  | nil => rfl
  | cons t rest ih => simp [List.filterMap_cons, Event.translatedOf, ih]

@[simp] theorem filterMap_translatedOf_handleError (ts : List PTrace) :
    (ts.map Event.handleErrorCall).filterMap Event.translatedOf = [] := by
  induction ts with
  | nil => rfl
  | cons t rest ih => simp [List.filterMap_cons, Event.translatedOf, ih]

@[simp] theorem filterMap_handledErrorOf_translate (ts : List PTrace) :
    (ts.map Event.translateCall).filterMap Event.handledErrorOf = [] := by
  induction ts with
  | nil => rfl
  | cons t rest ih => simp [List.filterMap_cons, Event.handledErrorOf, ih]

@[simp] theorem filterMap_handledErrorOf_handleError (ts : List PTrace) :
    (ts.map Event.handleErrorCall).filterMap Event.handledErrorOf = ts := by
  induction ts with
  | nil => rfl
  | cons t rest ih => simp [List.filterMap_cons, Event.handledErrorOf, ih]

/-- `handle` is `finishPipeline` applied to the aggregate result of
steps 2–5, with the `mapCall`/`executeCall` events present exactly when
extraction and validation succeeded. -/
theorem handle_eq (hooks : Hooks Raw ReqData UCResult Ctx CR)
    (parse : ReqData → Result Valid) (mapperTo : Valid → Payload)
    (execute : UseCaseInput Payload → Result UCResult)
    (translator : Translator) (request : PureRequest Raw) :
    handle hooks parse mapperTo execute translator request =
      finishPipeline hooks translator request.requester.preferredLocale
        (if ((hooks.extractRequestData request).chainSuccess parse).isFailure then
          [Event.initContextCall, Event.extractCall]
        else
          [Event.initContextCall, Event.extractCall, Event.mapCall,
            Event.executeCall])
        (hooks.initContext request)
        (aggregateResult hooks parse mapperTo execute request) := by
  unfold handle
  rw [aggregateResult_eq]
  cases h : (hooks.extractRequestData request).chainSuccess parse <;>
    simp [Result.isFailure]

/-- C1: for every request and every outcome of extraction, validation,
mapping and use-case execution, `handle` invokes `handleContext`
exactly once, as the last invocation of the run, and returns its
result; no execution path returns without calling it. -/
theorem C1_handleContext_once_last_returned
    (hooks : Hooks Raw ReqData UCResult Ctx CR)
    (parse : ReqData → Result Valid) (mapperTo : Valid → Payload)
    (execute : UseCaseInput Payload → Result UCResult)
    (translator : Translator) (request : PureRequest Raw) :
    ∃ pre,
      (handle hooks parse mapperTo execute translator request).log =
        pre ++ [Event.handleContextCall] ∧
      Event.handleContextCall ∉ pre ∧
      (handle hooks parse mapperTo execute translator request).result =
        hooks.handleContext
          (handle hooks parse mapperTo execute translator request).ctx := by
  rw [handle_eq]
  cases ha : aggregateResult hooks parse mapperTo execute request with
  | failure errors others =>
    rw [finishPipeline_failure]
    refine ⟨_, rfl, ?_, rfl⟩
    by_cases hb :
        ((hooks.extractRequestData request).chainSuccess parse).isFailure <;>
      simp [hb, List.mem_append, List.mem_map]
  | success v traces =>
    rw [finishPipeline_success]
    refine ⟨_, rfl, ?_, rfl⟩
    by_cases hb :
        ((hooks.extractRequestData request).chainSuccess parse).isFailure <;>
      simp [hb, List.mem_append, List.mem_map]

/-- C2: for every request whose `extractRequestData` result or schema
validation (`pureZodParse`) yields a Failure, the `execute` method of the use case
is never invoked and the mapper is never invoked, while the run still
proceeds through trace translation (one `translateCall` per
not-yet-localized trace, in order) and outcome dispatch
(`handleFailure` once, `handleContext` once). -/
theorem C2_validation_failure_skips_execution
    (hooks : Hooks Raw ReqData UCResult Ctx CR)
    (parse : ReqData → Result Valid) (mapperTo : Valid → Payload)
    (execute : UseCaseInput Payload → Result UCResult)
    (translator : Translator) (request : PureRequest Raw)
    (h : (hooks.extractRequestData request).isFailure = true ∨
      ∃ d ts, hooks.extractRequestData request = Result.success d ts ∧
        (parse d).isFailure = true) :
    (handle hooks parse mapperTo execute translator request).log.count
        Event.executeCall = 0 ∧
    (handle hooks parse mapperTo execute translator request).log.count
        Event.mapCall = 0 ∧
    (handle hooks parse mapperTo execute translator request).log.filterMap
        Event.translatedOf =
      ((hooks.extractRequestData request).chainSuccess parse).getTraces.filter
        (fun t => t.localizedMessage.isNone) ∧
    (handle hooks parse mapperTo execute translator request).log.count
        Event.handleFailureCall = 1 ∧
    (handle hooks parse mapperTo execute translator request).log.count
        Event.handleContextCall = 1 := by
  have hfail : ((hooks.extractRequestData request).chainSuccess parse).isFailure
      = true := by
    rcases h with h | ⟨d, ts, hd, hp⟩
    · cases he : hooks.extractRequestData request with
      | success v traces => rw [he] at h; simp [Result.isFailure] at h
      | failure errors others => simp [Result.chainSuccess, Result.isFailure]
    · rw [hd]
      cases hp2 : parse d with
      | success v traces => rw [hp2] at hp; simp [Result.isFailure] at hp
      | failure errors others =>
        simp [Result.chainSuccess, hp2, Result.prependTraces, Result.isFailure]
  cases hc : (hooks.extractRequestData request).chainSuccess parse with
  | success v traces => rw [hc] at hfail; simp [Result.isFailure] at hfail
  | failure errors others =>
    have hagg : aggregateResult hooks parse mapperTo execute request =
        Result.failure errors others := by
      rw [aggregateResult_eq, hc]
    rw [handle_eq, hagg, hc]
    simp only [Result.isFailure, if_true]
    rw [finishPipeline_failure]
    refine ⟨?_, ?_, ?_, ?_, ?_⟩ <;>
      simp [List.count_append, List.filterMap_append, Result.getTraces,
        List.filter_append, List.count_cons, List.count_nil,
        List.filterMap_cons, Event.translatedOf]

/-- C3: for every request whose aggregate Result is a Failure, `handle`
invokes `handleError` once per error, in exactly the order given by the
`getErrors()` iteration of the Result (each error being localized when it
reaches the hook), and invokes `handleFailure` exactly once, strictly
after all `handleError` calls: the log decomposes as a prefix holding
every `handleErrorCall` and no `handleFailureCall`, followed by the one
`handleFailureCall` and the final `handleContextCall`. -/
theorem C3_error_dispatch_order
    (hooks : Hooks Raw ReqData UCResult Ctx CR)
    (parse : ReqData → Result Valid) (mapperTo : Valid → Payload)
    (execute : UseCaseInput Payload → Result UCResult)
    (translator : Translator) (request : PureRequest Raw)
    (hf : (aggregateResult hooks parse mapperTo execute request).isFailure
      = true) :
    (handle hooks parse mapperTo execute translator request).log.filterMap
        Event.handledErrorOf =
      (handle hooks parse mapperTo execute translator request).finalResult.getErrors ∧
    (handle hooks parse mapperTo execute translator request).finalResult.getErrors =
      (aggregateResult hooks parse mapperTo execute request).getErrors.map
        (localize translator request.requester.preferredLocale) ∧
    (handle hooks parse mapperTo execute translator request).log.count
        Event.handleFailureCall = 1 ∧
    ∃ pre,
      (handle hooks parse mapperTo execute translator request).log =
        pre ++ [Event.handleFailureCall, Event.handleContextCall] ∧
      Event.handleFailureCall ∉ pre := by
  rw [handle_eq]
  cases ha : aggregateResult hooks parse mapperTo execute request with
  | success v traces => rw [ha] at hf; simp [Result.isFailure] at hf
  | failure errors others =>
    rw [finishPipeline_failure]
    refine ⟨?_, ?_, ?_, ?_⟩
    · by_cases hb :
          ((hooks.extractRequestData request).chainSuccess parse).isFailure <;>
        simp [hb, List.filterMap_append, Result.getErrors, List.filterMap_cons,
          Event.handledErrorOf]
    · simp [Result.getErrors]
    · by_cases hb :
          ((hooks.extractRequestData request).chainSuccess parse).isFailure <;>
        simp [hb, List.count_append, List.count_cons, List.count_nil]
    · refine ⟨(if ((hooks.extractRequestData request).chainSuccess
            parse).isFailure then
          [Event.initContextCall, Event.extractCall]
        else
          [Event.initContextCall, Event.extractCall, Event.mapCall,
            Event.executeCall]) ++
        ((errors ++ others).filter
          (fun t => t.localizedMessage.isNone)).map Event.translateCall ++
        (errors.map
          (localize translator request.requester.preferredLocale)).map
          Event.handleErrorCall, ?_, ?_⟩
      · simp [List.append_assoc]
      · by_cases hb :
            ((hooks.extractRequestData request).chainSuccess parse).isFailure <;>
          simp [hb, List.mem_append, List.mem_map]

/-- Exception-aware embedding of `handle`: the `to` method of the mapper is the one
collaborator whose interface documents that it `May throw if source is
invalid or mapping fails` (`src/infrastructure_boundary/mapping/mapper.ts`),
so it is given the type `Valid → Except String Payload`; a thrown
mapper exception propagates out of `handle` (the promise rejects).
Every other step returns a `Result` or is an adapter hook, which by the
collaborator contracts does not throw. -/
def handleE (hooks : Hooks Raw ReqData UCResult Ctx CR)
    (parse : ReqData → Result Valid)
    (mapperToE : Valid → Except String Payload)
    (execute : UseCaseInput Payload → Result UCResult)
    (translator : Translator) (request : PureRequest Raw) :
    Except String (ControllerRun UCResult Ctx CR) :=
  let context := hooks.initContext request
  let preferredLocale := request.requester.preferredLocale
  match (hooks.extractRequestData request).chainSuccess parse with
  | .failure errors others =>
    Except.ok (finishPipeline hooks translator preferredLocale
      [Event.initContextCall, Event.extractCall] context
      (.failure errors others))
  | .success validated ts =>
    match mapperToE validated with
    | .error msg => .error msg
    | .ok payload =>
      let input : UseCaseInput Payload := ⟨request.requester, payload⟩
      Except.ok (finishPipeline hooks translator preferredLocale
        [Event.initContextCall, Event.extractCall, Event.mapCall,
          Event.executeCall] context
        ((execute input).prependTraces ts))

/-- C6: provided the mapper is total — which the spec requires of step
4 — `handle` never throws and always resolves: on every input the
exception-aware pipeline returns `ok` with a run that still finishes
through `handleContext`; the worst case is a failure routed through the
normal dispatch path, never an unhandled fault. -/
theorem C6_handle_never_throws
    (hooks : Hooks Raw ReqData UCResult Ctx CR)
    (parse : ReqData → Result Valid)
    (mapperToE : Valid → Except String Payload)
    (execute : UseCaseInput Payload → Result UCResult)
    (translator : Translator) (request : PureRequest Raw)
    (hmap : ∀ v, ∃ p, mapperToE v = Except.ok p) :
    ∃ run, handleE hooks parse mapperToE execute translator request =
        Except.ok run ∧
      ∃ pre, run.log = pre ++ [Event.handleContextCall] := by
  unfold handleE
  cases hc : (hooks.extractRequestData request).chainSuccess parse with
  | failure errors others =>
    refine ⟨_, rfl, ?_⟩
    rw [finishPipeline_failure]
    exact ⟨_, rfl⟩
  | success validated ts =>
    dsimp only
    rcases hmap validated with ⟨p, hp⟩
    rw [hp]
    refine ⟨_, rfl, ?_⟩
    cases hr : (execute ⟨request.requester, p⟩).prependTraces ts with
    | failure errors others =>
      rw [finishPipeline_failure]
      exact ⟨_, rfl⟩
    | success v traces =>
      rw [finishPipeline_success]
      exact ⟨_, rfl⟩

/-- C4: for every request whose aggregate Result is a Success, `handle`
invokes `handleSuccess` exactly once, passing it that (translated)
Success and the current context, invokes `handleError` and
`handleFailure` zero times, and invokes `handleContext` exactly
once. -/
theorem C4_success_dispatch
    (hooks : Hooks Raw ReqData UCResult Ctx CR)
    (parse : ReqData → Result Valid) (mapperTo : Valid → Payload)
    (execute : UseCaseInput Payload → Result UCResult)
    (translator : Translator) (request : PureRequest Raw)
    (hs : (aggregateResult hooks parse mapperTo execute request).isFailure
      = false) :
    (handle hooks parse mapperTo execute translator request).log.count
        Event.handleSuccessCall = 1 ∧
    (∀ e, Event.handleErrorCall e ∉
      (handle hooks parse mapperTo execute translator request).log) ∧
    (handle hooks parse mapperTo execute translator request).log.count
        Event.handleFailureCall = 0 ∧
    (handle hooks parse mapperTo execute translator request).log.count
        Event.handleContextCall = 1 ∧
    (handle hooks parse mapperTo execute translator request).ctx =
      hooks.handleSuccess
        (handle hooks parse mapperTo execute translator request).finalResult
        (hooks.initContext request) ∧
    (handle hooks parse mapperTo execute translator request).finalResult.isFailure
      = false := by
  rw [handle_eq]
  cases ha : aggregateResult hooks parse mapperTo execute request with
  | failure errors others => rw [ha] at hs; simp [Result.isFailure] at hs
  | success v traces =>
    rw [finishPipeline_success]
    refine ⟨?_, ?_, ?_, ?_, rfl, rfl⟩ <;>
      (by_cases hb :
          ((hooks.extractRequestData request).chainSuccess parse).isFailure <;>
        simp [hb, List.count_append, List.count_cons, List.count_nil,
          List.mem_append, List.mem_map])

/-- C5: during one execution of `handle`, every trace of the aggregate
Result (errors included, since the errors are among the traces) whose
`localizedMessage` is still unset receives exactly one
`Translator.translate` call, in the iteration order of the traces, while
already-localized traces receive none; the final traces are the
original ones with `localize` applied, and `localize` leaves any
already-localized trace unchanged (idempotence). -/
theorem C5_translation_once_idempotent
    (hooks : Hooks Raw ReqData UCResult Ctx CR)
    (parse : ReqData → Result Valid) (mapperTo : Valid → Payload)
    (execute : UseCaseInput Payload → Result UCResult)
    (translator : Translator) (request : PureRequest Raw) :
    (handle hooks parse mapperTo execute translator request).log.filterMap
        Event.translatedOf =
      (aggregateResult hooks parse mapperTo execute request).getTraces.filter
        (fun t => t.localizedMessage.isNone) ∧
    (handle hooks parse mapperTo execute translator request).finalResult.getTraces =
      (aggregateResult hooks parse mapperTo execute request).getTraces.map
        (localize translator request.requester.preferredLocale) ∧
    (∀ t : PTrace, t.localizedMessage.isSome = true →
      localize translator request.requester.preferredLocale t = t) := by
  rw [handle_eq]
  cases ha : aggregateResult hooks parse mapperTo execute request with
  | failure errors others =>
    rw [finishPipeline_failure]
    refine ⟨?_, ?_, fun t ht => localize_of_isSome translator _ ht⟩
    · by_cases hb :
          ((hooks.extractRequestData request).chainSuccess parse).isFailure <;>
        simp [hb, List.filterMap_append, Result.getTraces, List.filter_append,
          List.filterMap_cons, Event.translatedOf]
    · simp [Result.getTraces]
  | success v traces =>
    rw [finishPipeline_success]
    refine ⟨?_, ?_, fun t ht => localize_of_isSome translator _ ht⟩
    · by_cases hb :
          ((hooks.extractRequestData request).chainSuccess parse).isFailure <;>
        simp [hb, List.filterMap_append, Result.getTraces,
          List.filterMap_cons, Event.translatedOf]
    · simp [Result.getTraces]

/-- A not-yet-localized process error, as produced by a use case. -/
def errNotFound : PTrace := ⟨("notFound"), TraceType.processError, some ("id42"), none⟩

/-- A technical issue, not correctable by the requester. -/
def errTech : PTrace := ⟨("dbDown"), TraceType.technicalIssue, none, none⟩

/-- An error already localized upstream. -/
def errLocalized : PTrace := ⟨("quota"), TraceType.processError, none, some ("done")⟩

/-- An informational trace. -/
def traceInfo : PTrace := ⟨("deprecated"), TraceType.info, none, none⟩

/-- A concrete translator attaching `locale:code`. -/
def sampleTranslator : Translator := fun t loc => loc ++ ":" ++ t.code

/-- A concrete request from requester `u1` with locale `en`. -/
def sampleRequest : PureRequest Unit := ⟨⟨("u1"), ("en")⟩, ()⟩

/-- Concrete hooks whose extraction succeeds; the context is a counter
recording which hooks ran. -/
def sampleHooks : Hooks Unit Nat Nat Nat Nat :=
  ⟨fun _ => 0, fun _ => Result.success 7 [traceInfo], fun _ c => c + 1,
    fun _ c => c + 10, fun _ c => c + 100, fun c => c⟩

/-- Concrete hooks whose extraction fails. -/
def sampleHooksBad : Hooks Unit Nat Nat Nat Nat :=
  ⟨fun _ => 0, fun _ => Result.failure [errNotFound, errLocalized] [traceInfo],
    fun _ c => c + 1, fun _ c => c + 10, fun _ c => c + 100, fun c => c⟩

/-- A schema validation that accepts everything. -/
def sampleParseOk : Nat → Result Nat := fun d => Result.success d []

/-- A concrete total mapper. -/
def sampleMapper : Nat → Nat := fun v => v + 1

/-- A concrete possibly-throwing mapper that in fact never throws. -/
def sampleMapperE : Nat → Except String Nat := fun v => Except.ok (v + 1)

/-- A use case that succeeds with one informational trace. -/
def sampleExecuteOk : UseCaseInput Nat → Result Nat :=
  fun input => Result.success input.payload [traceInfo]

/-- A use case that fails with two errors and one extra trace. -/
def sampleExecuteBad : UseCaseInput Nat → Result Nat :=
  fun _ => Result.failure [errNotFound, errTech] [traceInfo]

/-- Witness for C2 at a concrete failing extraction. -/
theorem C2_validation_failure_skips_execution_witness :
    (handle sampleHooksBad sampleParseOk sampleMapper sampleExecuteOk
        sampleTranslator sampleRequest).log.count Event.executeCall = 0 ∧
    (handle sampleHooksBad sampleParseOk sampleMapper sampleExecuteOk
        sampleTranslator sampleRequest).log.count Event.handleContextCall = 1 := by
  have h := C2_validation_failure_skips_execution sampleHooksBad sampleParseOk
    sampleMapper sampleExecuteOk sampleTranslator sampleRequest
    (Or.inl (by decide))
  exact ⟨h.1, h.2.2.2.2⟩

/-- Witness for C3 at a concrete failing use case. -/
theorem C3_error_dispatch_order_witness :
    (handle sampleHooks sampleParseOk sampleMapper sampleExecuteBad
        sampleTranslator sampleRequest).log.filterMap Event.handledErrorOf =
      (handle sampleHooks sampleParseOk sampleMapper sampleExecuteBad
        sampleTranslator sampleRequest).finalResult.getErrors ∧
    (handle sampleHooks sampleParseOk sampleMapper sampleExecuteBad
        sampleTranslator sampleRequest).log.count Event.handleFailureCall = 1 := by
  have h := C3_error_dispatch_order sampleHooks sampleParseOk sampleMapper
    sampleExecuteBad sampleTranslator sampleRequest (by decide)
  exact ⟨h.1, h.2.2.1⟩

/-- Witness for C4 at a concrete succeeding use case. -/
theorem C4_success_dispatch_witness :
    (handle sampleHooks sampleParseOk sampleMapper sampleExecuteOk
        sampleTranslator sampleRequest).log.count Event.handleSuccessCall = 1 ∧
    (handle sampleHooks sampleParseOk sampleMapper sampleExecuteOk
        sampleTranslator sampleRequest).log.count Event.handleContextCall = 1 := by
  have h := C4_success_dispatch sampleHooks sampleParseOk sampleMapper
    sampleExecuteOk sampleTranslator sampleRequest (by decide)
  exact ⟨h.1, h.2.2.2.1⟩

/-- Witness for C5 at a concrete run and a concrete already-localized
trace. -/
theorem C5_translation_once_idempotent_witness :
    (handle sampleHooks sampleParseOk sampleMapper sampleExecuteOk
        sampleTranslator sampleRequest).log.filterMap Event.translatedOf =
      (aggregateResult sampleHooks sampleParseOk sampleMapper
        sampleExecuteOk sampleRequest).getTraces.filter
        (fun t => t.localizedMessage.isNone) ∧
    localize sampleTranslator sampleRequest.requester.preferredLocale
      errLocalized = errLocalized := by
  have h := C5_translation_once_idempotent sampleHooks sampleParseOk
    sampleMapper sampleExecuteOk sampleTranslator sampleRequest
  exact ⟨h.1, h.2.2 errLocalized (by decide)⟩

/-- Witness for C6 at a concrete never-throwing mapper. -/
theorem C6_handle_never_throws_witness :
    ∃ run, handleE sampleHooks sampleParseOk sampleMapperE sampleExecuteOk
        sampleTranslator sampleRequest = Except.ok run ∧
      ∃ pre, run.log = pre ++ [Event.handleContextCall] :=
  C6_handle_never_throws sampleHooks sampleParseOk sampleMapperE
    sampleExecuteOk sampleTranslator sampleRequest (fun v => ⟨v + 1, rfl⟩)

/-- `Culture` (`src/common/culture.ts`): a locale string such as `"en"`
or `"fr-FR"`. -/
abbrev Culture := String

/-- The requester of `src/common/requester.ts` (the `preferredCulture`
variant used by the HTTP controller). -/
structure HttpRequester where
  id : String
  preferredCulture : Culture
deriving DecidableEq, Repr

/-- `HttpRequest` (`src/presentation/http/request.ts`): exposes its
requester; query parameters and URL are consumed only by the abstract
`getUseCaseInput` and are abstracted as an opaque value. -/
structure HttpRequest (Raw : Type) where
  requester : HttpRequester
  raw : Raw

/-- `HttpResponse` (`src/presentation/http/response.ts`): mutable
response state holding the status code set by `setStatus`. -/
structure HttpResponse where
  status : Option Nat
deriving DecidableEq, Repr

/-- `HttpResponse.setStatus(statusCode)`. -/
def HttpResponse.setStatus (r : HttpResponse) (statusCode : Nat) : HttpResponse :=
  { r with status := some statusCode }

/-- `ApiResponseTrace` (`src/presentation/responses/api_response.ts`). -/
structure ApiResponseTrace where
  code : String
  context : Option String
  localizedMessage : Option String
deriving DecidableEq, Repr

/-- `ApiResponsePagination` (`src/presentation/responses/api_response.ts`). -/
structure ApiResponsePagination where
  pageNumber : Nat
  pageSize : Nat
  count : Option Nat
deriving DecidableEq, Repr

/-- `ApiResponseMetadata` (`src/presentation/responses/api_response.ts`);
every field is optional in the source. -/
structure ApiResponseMetadata where
  culture : Option Culture
  pagination : Option ApiResponsePagination
  trace : Option (List ApiResponseTrace)
deriving DecidableEq, Repr

/-- `ApiResponse<T>` (`src/presentation/responses/api_response.ts`): a
discriminated union on `success`; modelled as the runtime object shape,
with `data` present only on success and `errors` only on failure. -/
structure ApiResponse (T : Type) where
  success : Bool
  data : Option T
  errors : List ApiResponseTrace
  metadata : Option ApiResponseMetadata
deriving DecidableEq, Repr

/-- `failureToApiResponse`
(`src/presentation/mapping/result_to_api_response.ts`). -/
def failureToApiResponse {α β : Type} (failure : Result α) : ApiResponse β :=
  ⟨false, none,
    failure.getErrors.map
      (fun error => ⟨error.code, error.data, error.localizedMessage⟩),
    some ⟨none, none,
      some (failure.getTraces.map
        (fun trace => ⟨trace.code, trace.data, trace.localizedMessage⟩))⟩⟩

/-- The abstract methods of the HTTP `PureController`
(`src/presentation/controllers/pure_controller.ts`):
`getUseCaseInput`, `checkError` and `setResponse` (which may also
mutate the response, hence returns the updated response). -/
structure HttpHooks (Raw UCInput UCResult ApiT : Type) where
  getUseCaseInput : HttpRequest Raw → Result UCInput
  checkError : PTrace → Option Nat
  setResponse : HttpResponse → UCResult → HttpResponse × ApiResponse ApiT

/-- The per-error loop of the HTTP `handle` (lines 57–66): accumulate
`containsTechnicalIssue`, translate the error if not yet localized, and
call `checkError` only while `statusCode` is still undefined.  Returns
the updated errors, the status accumulator, the technical-issue flag
and the events performed. -/
def httpErrorLoop (translator : Translator) (loc : Locale)
    (checkError : PTrace → Option Nat) :
    List PTrace → Option Nat → Bool →
      List PTrace × Option Nat × Bool × List Event
  | [], statusCode, containsTech => ([], statusCode, containsTech, [])
  | e :: rest, statusCode, containsTech =>
    let containsTech1 :=
      containsTech || decide (e.type = TraceType.technicalIssue)
    let s := translateStep translator loc e
    let chk : Option Nat × List Event :=
      match statusCode with
      | none => (checkError s.1, [Event.checkErrorCall s.1])
      | some c => (some c, [])
    let r := httpErrorLoop translator loc checkError rest chk.1 containsTech1
    (s.1 :: r.1, r.2.1, r.2.2.1, s.2 ++ chk.2 ++ r.2.2.2)

/-- Outcome of one run of the HTTP `handle`. -/
structure HttpRun (UCResult ApiT : Type) where
  response : HttpResponse
  apiResponse : ApiResponse ApiT
  status : Nat
  log : List Event
  finalResult : Result UCResult

/-- The HTTP `PureController.handle`
(`src/presentation/controllers/pure_controller.ts`, lines 26–88):
build the use-case input, execute, translate the traces, then on
failure scan the errors (technical-issue detection, per-error
translation, first defined `checkError` status), defaulting the status
to 400 and overriding it to 500 when a technical issue is present,
answering with `failureToApiResponse`; on success the status is 200 and
the response is built by `setResponse`.  `response.setStatus` runs last
in both branches. -/
def httpHandle (hooks : HttpHooks Raw UCInput UCResult ApiT)
    (execute : UCInput → Result UCResult) (translator : Translator)
    (request : HttpRequest Raw) (response : HttpResponse) :
    HttpRun UCResult ApiT :=
  let preferredCulture := request.requester.preferredCulture
  match translateResult translator preferredCulture
      ((hooks.getUseCaseInput request).chainSuccess execute) with
  | (Result.failure errors others, trEvents) =>
    let r := httpErrorLoop translator preferredCulture hooks.checkError
      errors none false
    let statusCode := if r.2.2.1 then 500 else r.2.1.getD 400
    let finalRes := Result.failure r.1 others
    ⟨response.setStatus statusCode, failureToApiResponse finalRes, statusCode,
      trEvents ++ r.2.2.2, finalRes⟩
  | (Result.success v traces, trEvents) =>
    let sr := hooks.setResponse response v
    ⟨sr.1.setStatus 200, sr.2, 200, trEvents, Result.success v traces⟩

theorem httpErrorLoop_some (translator : Translator) (loc : Locale)
    (checkError : PTrace → Option Nat) (errs : List PTrace) (c : Nat)
    (tech : Bool) (h : ∀ e ∈ errs, e.localizedMessage.isSome = true) :
    httpErrorLoop translator loc checkError errs (some c) tech =
      (errs, some c,
        tech || errs.any (fun e => decide (e.type = TraceType.technicalIssue)),
        []) := by
  induction errs generalizing tech with
  | nil => simp [httpErrorLoop]
  | cons e rest ih =>
    have he : e.localizedMessage.isSome = true := h e (List.mem_cons_self e rest)
    have hrest : ∀ x ∈ rest, x.localizedMessage.isSome = true :=
      fun x hx => h x (List.mem_cons_of_mem e hx)
    simp [httpErrorLoop, translateStep_of_isSome translator loc he,
      ih (tech || decide (e.type = TraceType.technicalIssue)) hrest,
      Bool.or_assoc]

theorem httpErrorLoop_none (translator : Translator) (loc : Locale)
    (checkError : PTrace → Option Nat) (errs : List PTrace) (tech : Bool)
    (h : ∀ e ∈ errs, e.localizedMessage.isSome = true) :
    httpErrorLoop translator loc checkError errs none tech =
      (errs, errs.findSome? checkError,
        tech || errs.any (fun e => decide (e.type = TraceType.technicalIssue)),
        (errs.take
          (errs.findIdx (fun e => (checkError e).isSome) + 1)).map
          Event.checkErrorCall) := by
  induction errs generalizing tech with
  | nil => simp [httpErrorLoop]
  | cons e rest ih =>
    have he : e.localizedMessage.isSome = true := h e (List.mem_cons_self e rest)
    have hrest : ∀ x ∈ rest, x.localizedMessage.isSome = true :=
      fun x hx => h x (List.mem_cons_of_mem e hx)
    cases hce : checkError e with
    | some c =>
      simp [httpErrorLoop, translateStep_of_isSome translator loc he,
        httpErrorLoop_some translator loc checkError rest c _ hrest,
        List.findSome?_cons, hce, List.findIdx_cons, Bool.or_assoc]
    | none =>
      simp [httpErrorLoop, translateStep_of_isSome translator loc he,
        ih (tech || decide (e.type = TraceType.technicalIssue)) hrest,
        List.findSome?_cons, hce, List.findIdx_cons,
        Bool.or_assoc, List.take_succ_cons]

@[simp] theorem filterMap_checkedErrorOf_translate (ts : List PTrace) :
    (ts.map Event.translateCall).filterMap Event.checkedErrorOf = [] := by
  induction ts with
  | nil => rfl
  | cons t rest ih => simp [List.filterMap_cons, Event.checkedErrorOf, ih]

@[simp] theorem filterMap_checkedErrorOf_checkError (ts : List PTrace) :
    (ts.map Event.checkErrorCall).filterMap Event.checkedErrorOf = ts := by
  induction ts with
  | nil => rfl
  | cons t rest ih => simp [List.filterMap_cons, Event.checkedErrorOf, ih]

/-- Characterization of the HTTP `handle` on an aggregate failure: the
errors are localized by the trace loop, `checkError` is scanned up to
its first defined answer, the technical-issue scan covers every error,
and the response is `failureToApiResponse` of the mutated failure. -/
theorem httpHandle_failure (hooks : HttpHooks Raw UCInput UCResult ApiT)
    (execute : UCInput → Result UCResult) (translator : Translator)
    (request : HttpRequest Raw) (response : HttpResponse)
    (errors others : List PTrace)
    (hr : (hooks.getUseCaseInput request).chainSuccess execute =
      Result.failure errors others) :
    httpHandle hooks execute translator request response =
      ⟨response.setStatus
        (if (errors.map
              (localize translator request.requester.preferredCulture)).any
              (fun e => decide (e.type = TraceType.technicalIssue)) then 500
          else ((errors.map
              (localize translator request.requester.preferredCulture)).findSome?
              hooks.checkError).getD 400),
        failureToApiResponse ((Result.failure
          (errors.map (localize translator request.requester.preferredCulture))
          (others.map (localize translator request.requester.preferredCulture))
          : Result UCResult)),
        (if (errors.map
              (localize translator request.requester.preferredCulture)).any
              (fun e => decide (e.type = TraceType.technicalIssue)) then 500
          else ((errors.map
              (localize translator request.requester.preferredCulture)).findSome?
              hooks.checkError).getD 400),
        ((errors ++ others).filter
            (fun t => t.localizedMessage.isNone)).map Event.translateCall ++
          ((errors.map
              (localize translator request.requester.preferredCulture)).take
            ((errors.map
                (localize translator request.requester.preferredCulture)).findIdx
              (fun e => (hooks.checkError e).isSome) + 1)).map
            Event.checkErrorCall,
        Result.failure
          (errors.map (localize translator request.requester.preferredCulture))
          (others.map (localize translator request.requester.preferredCulture))⟩ := by
  have hloc : ∀ e ∈ errors.map
      (localize translator request.requester.preferredCulture),
      e.localizedMessage.isSome = true := by
    intro e he
    rcases List.mem_map.mp he with ⟨x, _, hx⟩
    rw [← hx]
    exact localize_isSome translator _ x
  unfold httpHandle
  rw [hr]
  simp only [translateResult, translateList_fst, translateList_snd,
    httpErrorLoop_none translator request.requester.preferredCulture
      hooks.checkError _ false hloc,
    Bool.false_or, List.filter_append, List.map_append, List.append_assoc]

/-- C7: in the HTTP variant, on a Failure: if some error has type
technicalIssue the status is 500; if none has, the status is the first
defined `checkError` answer (over the localized errors, in `getErrors`
order) or 400 by default, and — assuming `checkError` yields only
non-5xx codes — the resulting status is non-5xx; the dispatch shape is
the same in both cases: the response body is `failureToApiResponse` of
the final failure and `setStatus` records the chosen status. -/
theorem C7_failure_status_classes (hooks : HttpHooks Raw UCInput UCResult ApiT)
    (execute : UCInput → Result UCResult) (translator : Translator)
    (request : HttpRequest Raw) (response : HttpResponse)
    (hf : ((hooks.getUseCaseInput request).chainSuccess execute).isFailure
      = true) :
    ((∃ e ∈ (httpHandle hooks execute translator request
          response).finalResult.getErrors, e.type = TraceType.technicalIssue) →
      (httpHandle hooks execute translator request response).status = 500) ∧
    ((∀ e ∈ (httpHandle hooks execute translator request
          response).finalResult.getErrors,
        ¬ e.type = TraceType.technicalIssue) →
      (httpHandle hooks execute translator request response).status =
        ((httpHandle hooks execute translator request
            response).finalResult.getErrors.findSome? hooks.checkError).getD 400 ∧
      ((∀ e c, hooks.checkError e = some c → c < 500 ∨ 599 < c) →
        ((httpHandle hooks execute translator request response).status < 500 ∨
          599 < (httpHandle hooks execute translator request response).status))) ∧
    (httpHandle hooks execute translator request response).apiResponse =
      failureToApiResponse
        (httpHandle hooks execute translator request response).finalResult ∧
    (httpHandle hooks execute translator request response).response.status =
      some (httpHandle hooks execute translator request response).status := by
  cases hr : (hooks.getUseCaseInput request).chainSuccess execute with
  | success v traces => rw [hr] at hf; simp [Result.isFailure] at hf
  | failure errors others =>
    rw [httpHandle_failure hooks execute translator request response errors
      others hr]
    simp only [Result.getErrors]
    refine ⟨?_, ?_, by simp, by simp [HttpResponse.setStatus]⟩
    · rintro ⟨e, he, het⟩
      have hany : (errors.map
          (localize translator request.requester.preferredCulture)).any
          (fun e => decide (e.type = TraceType.technicalIssue)) = true :=
        List.any_eq_true.mpr ⟨e, he, by simp [het]⟩
      simp [hany]
    · intro hno
      have hany : (errors.map
          (localize translator request.requester.preferredCulture)).any
          (fun e => decide (e.type = TraceType.technicalIssue)) = false := by
        rw [List.any_eq_false]
        intro e he
        simp [hno e he]
      refine ⟨by simp [hany], ?_⟩
      intro hck
      simp only [hany, Bool.false_eq_true, if_false]
      cases hfs : (errors.map
          (localize translator request.requester.preferredCulture)).findSome?
          hooks.checkError with
      | none => simp
      | some c =>
        rcases List.exists_of_findSome?_eq_some hfs with ⟨e, _, hce⟩
        simpa using hck e c hce

/-- C10: in the HTTP variant, on a Failure, the `checkError` calls are
exactly the localized errors up to and including the first one for
which `checkError` is defined (no later error is checked), while the
technical-issue scan covers every error: without a technicalIssue the
status is the first defined `checkError` answer (or 400), and any
technicalIssue overrides the status to 500. -/
theorem C10_checkError_short_circuit (hooks : HttpHooks Raw UCInput UCResult ApiT)
    (execute : UCInput → Result UCResult) (translator : Translator)
    (request : HttpRequest Raw) (response : HttpResponse)
    (hf : ((hooks.getUseCaseInput request).chainSuccess execute).isFailure
      = true) :
    (httpHandle hooks execute translator request response).log.filterMap
        Event.checkedErrorOf =
      (httpHandle hooks execute translator request
          response).finalResult.getErrors.take
        ((httpHandle hooks execute translator request
            response).finalResult.getErrors.findIdx
          (fun e => (hooks.checkError e).isSome) + 1) ∧
    ((∀ e ∈ (httpHandle hooks execute translator request
          response).finalResult.getErrors,
        ¬ e.type = TraceType.technicalIssue) →
      (httpHandle hooks execute translator request response).status =
        ((httpHandle hooks execute translator request
            response).finalResult.getErrors.findSome? hooks.checkError).getD 400) ∧
    ((∃ e ∈ (httpHandle hooks execute translator request
          response).finalResult.getErrors, e.type = TraceType.technicalIssue) →
      (httpHandle hooks execute translator request response).status = 500) := by
  cases hr : (hooks.getUseCaseInput request).chainSuccess execute with
  | success v traces => rw [hr] at hf; simp [Result.isFailure] at hf
  | failure errors others =>
    rw [httpHandle_failure hooks execute translator request response errors
      others hr]
    simp only [Result.getErrors]
    refine ⟨?_, ?_, ?_⟩
    · simp only [List.filterMap_append, filterMap_checkedErrorOf_translate,
        filterMap_checkedErrorOf_checkError, List.append_nil, List.nil_append]
    · intro hno
      have hany : (errors.map
          (localize translator request.requester.preferredCulture)).any
          (fun e => decide (e.type = TraceType.technicalIssue)) = false := by
        rw [List.any_eq_false]
        intro e he
        simp [hno e he]
      simp [hany]
    · rintro ⟨e, he, het⟩
      have hany : (errors.map
          (localize translator request.requester.preferredCulture)).any
          (fun e => decide (e.type = TraceType.technicalIssue)) = true :=
        List.any_eq_true.mpr ⟨e, he, by simp [het]⟩
      simp [hany]

/-- C9: for every Failure, `failureToApiResponse` returns an envelope
with `success = false`, an `errors` array of the same length and order
as `getErrors()` copying, for each error, its `code`, its `data` (under the
name `context`) and its `localizedMessage`, and a `metadata.trace`
array mirroring `getTraces()` element by element in order. -/
theorem C9_failureToApiResponse_envelope {α β : Type}
    (errors others : List PTrace) :
    (@failureToApiResponse α β (Result.failure errors others)).success = false ∧
    (@failureToApiResponse α β (Result.failure errors others)).errors.length =
      (Result.failure errors others : Result α).getErrors.length ∧
    (@failureToApiResponse α β (Result.failure errors others)).errors.map
        ApiResponseTrace.code =
      (Result.failure errors others : Result α).getErrors.map PTrace.code ∧
    (@failureToApiResponse α β (Result.failure errors others)).errors.map
        ApiResponseTrace.context =
      (Result.failure errors others : Result α).getErrors.map PTrace.data ∧
    (@failureToApiResponse α β (Result.failure errors others)).errors.map
        ApiResponseTrace.localizedMessage =
      (Result.failure errors others : Result α).getErrors.map
        PTrace.localizedMessage ∧
    ∃ ts, (@failureToApiResponse α β (Result.failure errors others)).metadata =
        some ⟨none, none, some ts⟩ ∧
      ts.length = (Result.failure errors others : Result α).getTraces.length ∧
      ts.map ApiResponseTrace.code =
        (Result.failure errors others : Result α).getTraces.map PTrace.code ∧
      ts.map ApiResponseTrace.context =
        (Result.failure errors others : Result α).getTraces.map PTrace.data ∧
      ts.map ApiResponseTrace.localizedMessage =
        (Result.failure errors others : Result α).getTraces.map
          PTrace.localizedMessage := by
  refine ⟨rfl, ?_, ?_, ?_, ?_, _, rfl, ?_, ?_, ?_, ?_⟩ <;>
    simp [failureToApiResponse, Result.getErrors, Result.getTraces,
      List.map_map, Function.comp_def]

/-- A concrete HTTP request from requester `u1` with culture `en`. -/
def sampleHttpRequest : HttpRequest Unit := ⟨⟨("u1"), ("en")⟩, ()⟩

/-- A fresh HTTP response with no status set. -/
def sampleHttpResponse : HttpResponse := ⟨none⟩

/-- A concrete `checkError` mapping `notFound` to 404. -/
def sampleCheckError : PTrace → Option Nat :=
  fun e => if e.code == "notFound" then some 404 else none

/-- A concrete `setResponse`. -/
def sampleSetResponse : HttpResponse → Nat → HttpResponse × ApiResponse Nat :=
  fun resp v => (resp, ⟨true, some v, [], none⟩)

/-- Concrete HTTP hooks whose input building fails with a technical
issue among the errors. -/
def sampleHttpHooksTech : HttpHooks Unit Nat Nat Nat :=
  ⟨fun _ => Result.failure [errNotFound, errTech] [traceInfo],
    sampleCheckError, sampleSetResponse⟩

/-- Concrete HTTP hooks whose input building fails with only
caller-correctable errors. -/
def sampleHttpHooksProc : HttpHooks Unit Nat Nat Nat :=
  ⟨fun _ => Result.failure [errLocalized, errNotFound] [],
    sampleCheckError, sampleSetResponse⟩

/-- A concrete use case for the HTTP pipeline. -/
def sampleHttpExecute : Nat → Result Nat := fun v => Result.success v []

/-- Witness for C7 at a concrete failure containing a technical
issue. -/
theorem C7_failure_status_classes_witness :
    (httpHandle sampleHttpHooksTech sampleHttpExecute sampleTranslator
      sampleHttpRequest sampleHttpResponse).status = 500 ∧
    (httpHandle sampleHttpHooksTech sampleHttpExecute sampleTranslator
        sampleHttpRequest sampleHttpResponse).response.status =
      some (httpHandle sampleHttpHooksTech sampleHttpExecute sampleTranslator
        sampleHttpRequest sampleHttpResponse).status := by
  have h := C7_failure_status_classes sampleHttpHooksTech sampleHttpExecute
    sampleTranslator sampleHttpRequest sampleHttpResponse (by decide)
  exact ⟨h.1 (by decide), h.2.2.2⟩

/-- Witness for C10 at a concrete failure without technical issues:
the first error yields no status, the second yields 404. -/
theorem C10_checkError_short_circuit_witness :
    (httpHandle sampleHttpHooksProc sampleHttpExecute sampleTranslator
      sampleHttpRequest sampleHttpResponse).status = 404 := by
  have h := C10_checkError_short_circuit sampleHttpHooksProc sampleHttpExecute
    sampleTranslator sampleHttpRequest sampleHttpResponse (by decide)
  exact (h.2.1 (by decide)).trans (by decide)

/-- A JavaScript runtime exception raised by interactor code: either an
explicit `throw new Error(message)` or the `TypeError` produced by
invoking an absent optional method. -/
inductive JsException where
  | jsError (message : String)
  | jsTypeError (message : String)
deriving DecidableEq, Repr

/-- `UpdateInput` (`src/application_boundary/use_cases/update/input.ts`):
requester, target id and partial entity data. -/
structure UpdateInput (Req I D : Type) where
  requester : Req
  id : I
  data : D

/-- `UpdateCommand` (`src/infrastructure_boundary/persistence/repository.ts`):
requester, target id and partial entity data. -/
structure UpdateCommand (Req I D : Type) where
  requester : Req
  id : I
  data : D

/-- `Repository` (`src/infrastructure_boundary/persistence/repository.ts`):
`findById`, `findAll`, `create` and `delete` are required; `update`,
`softDelete` and `restore` are optional capabilities (possibly-undefined
methods), modelled as `Option`-valued fields.  The `ResultAsync` return
types are modelled by `Result` (one suspension point, run to
completion). -/
structure Repository (Params CreateCmd Query UpdCmd Entity Page : Type) where
  findById : Params → Result Entity
  findAll : Query → Result Page
  create : CreateCmd → Result Entity
  update : Option (UpdCmd → Result Entity)
  delete : Params → Result Unit
  softDelete : Option (Params → Result Unit)
  restore : Option (Params → Result Unit)

/-- `RestoreInteractor` (`src/application/use_cases/restore/interactor.ts`). -/
structure RestoreInteractor (Params CreateCmd Query UpdCmd Entity Page : Type) where
  repository : Repository Params CreateCmd Query UpdCmd Entity Page

/-- `RestoreInteractor.execute`: when the repository lacks `restore`,
throw a new Error reading `Restore is not supported by this
repository`; otherwise return `this.repository.restore(params)`. -/
def RestoreInteractor.execute
    (self : RestoreInteractor Params CreateCmd Query UpdCmd Entity Page)
    (params : Params) : Except JsException (Result Unit) :=
  match self.repository.restore with
  | none => Except.error
      (JsException.jsError ("Restore is not supported by this repository"))
  | some restore => Except.ok (restore params)

/-- `SoftDeleteInteractor` (soft-delete interactor source file). -/
structure SoftDeleteInteractor (Params CreateCmd Query UpdCmd Entity Page : Type) where
  repository : Repository Params CreateCmd Query UpdCmd Entity Page

/-- `SoftDeleteInteractor.execute`: when the repository lacks
`softDelete`, throw a new Error reading `Soft delete is not supported
by this repository`; otherwise return
`this.repository.softDelete(params)`. -/
def SoftDeleteInteractor.execute
    (self : SoftDeleteInteractor Params CreateCmd Query UpdCmd Entity Page)
    (params : Params) : Except JsException (Result Unit) :=
  match self.repository.softDelete with
  | none => Except.error
      (JsException.jsError ("Soft delete is not supported by this repository"))
  | some softDelete => Except.ok (softDelete params)

/-- `UpdateInteractor` (`src/application/use_cases/...`, the update
interactor): repository plus entity-to-DTO mapper. -/
structure UpdateInteractor (Req I D Params CreateCmd Query Entity Page Dto : Type) where
  repository : Repository Params CreateCmd Query (UpdateCommand Req I D) Entity Page
  mapper : Entity → Dto

/-- `UpdateInteractor.update`: builds the `UpdateCommand` from the input
and calls `this.repository.update(command)` with no guard on the
optional method — in JavaScript, invoking an absent optional method
throws `TypeError: this.repository.update is not a function` at
runtime; the embedding records that implicit throw.  On a present
method it delegates and maps the updated entity through the mapper. -/
def UpdateInteractor.update
    (self : UpdateInteractor Req I D Params CreateCmd Query Entity Page Dto)
    (params : UpdateInput Req I D) : Except JsException (Result Dto) :=
  match self.repository.update with
  | none => Except.error
      (JsException.jsTypeError ("this.repository.update is not a function"))
  | some update => Except.ok
      ((update ⟨params.requester, params.id, params.data⟩).mapSuccess
        (fun entity => Result.success (self.mapper entity) []))

/-- C8: for each optional repository capability (update, softDelete,
restore), the execution of the corresponding interactor throws a runtime
error when the injected repository does not provide the method (an
explicit `Error` for restore and soft delete, the implicit `TypeError`
for update), and delegates to the method of the repository when it is
present. -/
theorem C8_optional_capability_guards
    (ri : RestoreInteractor Params CreateCmd Query UpdCmd Entity Page)
    (rparams : Params)
    (si : SoftDeleteInteractor Params CreateCmd Query UpdCmd Entity Page)
    (sparams : Params)
    (ui : UpdateInteractor Req I D Params CreateCmd Query Entity Page Dto)
    (input : UpdateInput Req I D) :
    ((ri.repository.restore = none →
        ri.execute rparams = Except.error
          (JsException.jsError ("Restore is not supported by this repository"))) ∧
      (∀ f, ri.repository.restore = some f →
        ri.execute rparams = Except.ok (f rparams))) ∧
    ((si.repository.softDelete = none →
        si.execute sparams = Except.error
          (JsException.jsError ("Soft delete is not supported by this repository"))) ∧
      (∀ f, si.repository.softDelete = some f →
        si.execute sparams = Except.ok (f sparams))) ∧
    ((ui.repository.update = none →
        ui.update input = Except.error
          (JsException.jsTypeError ("this.repository.update is not a function"))) ∧
      (∀ f, ui.repository.update = some f →
        ui.update input = Except.ok
          ((f ⟨input.requester, input.id, input.data⟩).mapSuccess
            (fun entity => Result.success (ui.mapper entity) [])))) := by
  refine ⟨⟨?_, ?_⟩, ⟨?_, ?_⟩, ⟨?_, ?_⟩⟩
  · intro h
    simp [RestoreInteractor.execute, h]
  · intro f h
    simp [RestoreInteractor.execute, h]
  · intro h
    simp [SoftDeleteInteractor.execute, h]
  · intro f h
    simp [SoftDeleteInteractor.execute, h]
  · intro h
    simp [UpdateInteractor.update, h]
  · intro f h
    simp [UpdateInteractor.update, h]

/-- A concrete repository providing none of the optional capabilities. -/
def sampleRepoBasic : Repository Nat Nat Nat (UpdateCommand Nat Nat Nat) Nat Nat :=
  ⟨fun _ => Result.success 0 [], fun _ => Result.success 0 [],
    fun _ => Result.success 0 [], none, fun _ => Result.success () [],
    none, none⟩

/-- A concrete repository providing all optional capabilities. -/
def sampleRepoFull : Repository Nat Nat Nat (UpdateCommand Nat Nat Nat) Nat Nat :=
  ⟨fun _ => Result.success 0 [], fun _ => Result.success 0 [],
    fun _ => Result.success 0 [], some (fun c => Result.success c.id []),
    fun _ => Result.success () [], some (fun _ => Result.success () []),
    some (fun _ => Result.success () [])⟩

/-- A restore interactor over the capability-less repository. -/
def sampleRestoreBasic :
    RestoreInteractor Nat Nat Nat (UpdateCommand Nat Nat Nat) Nat Nat :=
  ⟨sampleRepoBasic⟩

/-- A soft-delete interactor over the full repository. -/
def sampleSoftDeleteFull :
    SoftDeleteInteractor Nat Nat Nat (UpdateCommand Nat Nat Nat) Nat Nat :=
  ⟨sampleRepoFull⟩

/-- An update interactor over the capability-less repository. -/
def sampleUpdateBasic :
    UpdateInteractor Nat Nat Nat Nat Nat Nat Nat Nat Nat :=
  ⟨sampleRepoBasic, fun e => e + 1⟩

/-- Witness for C8 at concrete repositories: restore and update throw
on the capability-less repository, soft delete delegates on the full
one. -/
theorem C8_optional_capability_guards_witness :
    sampleRestoreBasic.execute 1 = Except.error
      (JsException.jsError ("Restore is not supported by this repository")) ∧
    sampleUpdateBasic.update ⟨1, 2, 3⟩ = Except.error
      (JsException.jsTypeError ("this.repository.update is not a function")) ∧
    sampleSoftDeleteFull.execute 1 = Except.ok (Result.success () []) := by
  have h := C8_optional_capability_guards sampleRestoreBasic 1
    sampleSoftDeleteFull 1 sampleUpdateBasic ⟨1, 2, 3⟩
  exact ⟨h.1.1 rfl, h.2.2.1 rfl,
    h.2.1.2 (fun _ => Result.success () []) rfl⟩

end PureArch
